import Mathlib

/-!
Shallow embedding of `app/utils/video_processor_v2.py` (class `VideoProcessor`),
together with proofs checking the natural-language specification against it.

Modelling conventions:
* A decoded frame is modelled by its single-channel (grayscale) intensity
  image, flattened to a list of integers (`Frame := List ℤ`).  The colour →
  grayscale conversion (`cv2.cvtColor`) is an external decode primitive and is
  applied uniformly before any pixel arithmetic in the source, so frames enter
  the model already converted.
* Python `float` arithmetic (`/`, `//`, `%`, `int(...)`) is modelled exactly
  over `ℚ`; `int(x)` is truncation towards zero (`pyInt`), `x // y` is the
  floor (`qfloor`), `x % y` is the sign-of-divisor remainder (`qmod`).
* Filenames are modelled as lists of character codes (`List ℕ`), so that the
  `keyframe_{idx:06d}_{HHMMSS}.jpg` formatting and the recovery-scan regex
  `keyframe_(\d+)_\d+\.jpg$` can both be given executable semantics.
* External library calls are modelled by their documented behaviour:
  `np.argmin` returns the first index attaining the minimum;
  `KMeans(n_clusters=1).fit` places its single cluster centre at the mean of
  the feature vectors; `cv2.VideoCapture.read` on a released capture reports
  failure (`ret = False`); `shutil`/`os` filesystem effects are recorded as
  result fields.
-/

namespace VideoProc

/-- A decoded frame, as its flattened grayscale intensity vector. -/
abbrev Frame := List ℤ

/-! ### Python numeric primitives -/

/-- Floor of a rational, computably: the Lean `Int` division `q.num / q.den`
is euclidean division, which for the positive denominator of a `Rat` is the
floor (`Rat.floor_def`). Models Python float `//` (with an exact operand). -/
def qfloor (q : ℚ) : ℤ := q.num / q.den

/-- Python `int(x)`: truncation towards zero. -/
def pyInt (q : ℚ) : ℤ := if 0 ≤ q then qfloor q else -qfloor (-q)

/-- Python float `%`: remainder with the sign of the divisor
(`a % b = a - b * (a // b)`). -/
def qmod (a b : ℚ) : ℚ := a - b * (qfloor (a / b) : ℚ)

/-- Python `l[k:]` slicing for an arbitrary (possibly negative) start. -/
def pySliceFrom {α : Type} (l : List α) (k : ℤ) : List α :=
  if 0 ≤ k then l.drop k.toNat else l.drop ((l.length : ℤ) + k).toNat

/-! ### Decimal formatting of indices and timestamps (`save_keyframes`,
source lines 115-126) -/

/-- Little-endian decimal digits of `n`, with structural fuel so that the
kernel can evaluate it (`fuel ≥ n` suffices). -/
def natDigitsAux : ℕ → ℕ → List ℕ
  | 0, _ => []
  | _ + 1, 0 => []
  | fuel + 1, n + 1 => ((n + 1) % 10) :: natDigitsAux fuel ((n + 1) / 10)

/-- Big-endian decimal digit character codes of `n` (empty for `0`;
zero-padding below covers that case, as Python's `{:0wd}` does). -/
def digitsBE (n : ℕ) : List ℕ := ((natDigitsAux n n).reverse).map (fun d => 48 + d)

/-- Python `f"{n:0wd}"` for `n ≥ 0`: decimal digits left-padded with `'0'`
(code 48) to width `w`. -/
def fmtNat (w n : ℕ) : List ℕ := List.replicate (w - (digitsBE n).length) 48 ++ digitsBE n

/-- Python `f"{n:0wd}"` for an arbitrary integer: the sign (code 45) counts
towards the width. -/
def fmtInt (w : ℕ) (n : ℤ) : List ℕ :=
  if 0 ≤ n then fmtNat w n.toNat else 45 :: fmtNat (w - 1) (-n).toNat

/-- The `HHMMSS` timestamp string of `save_keyframes` (lines 118-122):
`timestamp = frame_idx / fps`, `hours = int(timestamp // 3600)`,
`minutes = int((timestamp % 3600) // 60)`, `seconds = int(timestamp % 60)`,
each rendered with `{:02d}`.  (Applying `int` to the already integral floor
values leaves them unchanged, so each component is the plain floor.) -/
def timeCodes (fps : ℕ) (idx : ℤ) : List ℕ :=
  let ts : ℚ := (idx : ℚ) / (fps : ℚ)
  fmtInt 2 (qfloor (ts / 3600)) ++ fmtInt 2 (qfloor (qmod ts 3600 / 60)) ++
    fmtInt 2 (qfloor (qmod ts 60))

/-- Character codes of the literal `"keyframe_"`. -/
def kfTag : List ℕ := [107, 101, 121, 102, 114, 97, 109, 101, 95]

/-- Character codes of the literal `".jpg"`. -/
def jpgExt : List ℕ := [46, 106, 112, 103]

/-- The filename written by `save_keyframes` for frame index `idx`
(lines 118-126): `keyframe_{idx:06d}_{HHMMSS}.jpg`. -/
def keyframeName (fps : ℕ) (idx : ℤ) : List ℕ :=
  kfTag ++ fmtInt 6 idx ++ [95] ++ timeCodes fps idx ++ jpgExt

/-! ### Recovery scan (`extract_numbers_from_folder`, lines 177-196) -/

/-- Code of a decimal digit character (`\d`). -/
def isDigitCode (c : ℕ) : Bool := decide (48 ≤ c) && decide (c ≤ 57)

/-- Python `int(...)` on a string of digit codes (big-endian decimal). -/
def valCodes (l : List ℕ) : ℕ := Nat.ofDigits 10 ((l.map (fun c => c - 48)).reverse)

/-- Python `str.startswith`, on code lists. -/
def startsWith : List ℕ → List ℕ → Bool
  | [], _ => true
  | _ :: _, [] => false
  | a :: as, b :: bs => a == b && startsWith as bs

/-- Python `str.endswith`, on code lists. -/
def endsWith (pat s : List ℕ) : Bool := startsWith pat.reverse s.reverse

/-- Attempt to match the regex `keyframe_(\d+)_\d+\.jpg$` with the match
starting at the head of `s` (and, because of the `$` anchor, consuming all of
`s`); returns `int(group(1))` on success.  Greedy `\d+` needs no backtracking
here because a digit can match neither `_` nor `.`. -/
def matchKeyframeAt (s : List ℕ) : Option ℕ :=
  if startsWith kfTag s then
    let r1 := s.drop kfTag.length
    let d1 := r1.takeWhile isDigitCode
    let r2 := r1.drop d1.length
    if d1.isEmpty then none
    else if r2.take 1 == [95] then
      let r3 := r2.drop 1
      let d2 := r3.takeWhile isDigitCode
      if d2.isEmpty then none
      else if r3.drop d2.length == jpgExt then some (valCodes d1) else none
    else none
  else none

/-- `re.search` for the pattern above: leftmost start position wins. -/
def searchKeyframe : List ℕ → Option ℕ
  | [] => none
  | c :: rest =>
    match matchKeyframeAt (c :: rest) with
    | some n => some n
    | none => searchKeyframe rest

/-- Python `sorted` on a list of naturals (ascending). -/
def pySorted (l : List ℕ) : List ℕ := List.insertionSort (fun a b => a ≤ b) l

/-- `extract_numbers_from_folder` (lines 177-196): keep the `.jpg` files,
extract `int(group(1))` where the regex matches, and sort ascending.
`files` stands for `os.listdir(folder_path)` in arbitrary order. -/
def extract_numbers_from_folder (files : List (List ℕ)) : List ℕ :=
  pySorted ((files.filter (fun f => endsWith jpgExt f)).filterMap searchKeyframe)

/-! ### Shot boundary detection (`detect_shot_boundaries`, lines 51-69) -/

/-- `np.mean(np.abs(curr.astype(int) - prev.astype(int)))` on two grayscale
frames: sum of absolute pixelwise differences divided by the pixel count
(the frames share one shape in the source; the model divides by the first
frame's size). -/
def meanAbsDiff (a b : Frame) : ℚ :=
  ((a.zipWith (fun x y => ((x - y).natAbs : ℚ)) b).sum) / (a.length : ℚ)

/-- `detect_shot_boundaries` (lines 62-69): for `i in range(1, len(frames))`,
record `i` iff the mean absolute grayscale difference of frames `i-1` and `i`
exceeds `threshold`. -/
def detect_shot_boundaries (frames : List Frame) (threshold : ℚ) : List ℕ :=
  (List.range' 1 (frames.length - 1)).filter
    (fun i => decide (threshold < meanAbsDiff (frames.getD (i - 1) []) (frames.getD i [])))

/-! ### Per-shot representative selection (`extract_keyframes`, lines 71-99) -/

/-- Feature dimension of a shot: the length of the first flattened frame
(`KMeans` requires all rows to share it). -/
def featDim (shot : List Frame) : ℕ := shot.headI.length

/-- Coordinate `k` of the single `KMeans(n_clusters=1)` cluster centre: the
mean of the feature vectors (sklearn's one-cluster fit converges to the
column mean). -/
def centroid (shot : List Frame) (k : ℕ) : ℚ :=
  ((shot.map (fun f => ((f.getD k 0 : ℤ) : ℚ))).sum) / (shot.length : ℚ)

/-- `np.sum((feature - centre) ** 2)` for one frame of the shot. -/
def sqDistToCentroid (shot : List Frame) (f : Frame) : ℚ :=
  ((List.range (featDim shot)).map
    (fun k => (((f.getD k 0 : ℤ) : ℚ) - centroid shot k) ^ 2)).sum

/-- `np.argmin`: the first index attaining the minimum of the list. -/
def argminFirst (l : List ℚ) : ℕ := l.findIdx (fun v => l.all (fun w => decide (v ≤ w)))

/-- `center_idx` of line 94: index (within the shot) of the frame closest to
the cluster centre, first minimum on ties. -/
def selectRep (shot : List Frame) : ℕ := argminFirst (shot.map (sqDistToCentroid shot))

/-- `start = shot_boundaries[i - 1] if i > 0 else 0` (line 87). -/
def shotStart (bounds : List ℕ) (i : ℕ) : ℕ :=
  if 0 < i then bounds.getD (i - 1) 0 else 0

/-- `shot_frames = frames[start:end]` (lines 88-89). -/
def shotFrames (frames : List Frame) (bounds : List ℕ) (i : ℕ) : List Frame :=
  (frames.drop (shotStart bounds i)).take (bounds.getD i 0 - shotStart bounds i)

/-- `extract_keyframes` (lines 86-99): one `(frame, absolute index)` pair per
entry of `shot_boundaries` — note the loop runs `range(len(shot_boundaries))`
times, so an empty boundary list yields no pairs.  (The source returns the
frames and the indices as two parallel lists; the model pairs them.  On an
empty span the source raises inside `KMeans.fit`; the model returns a junk
pair there, and every theorem below only reaches non-empty spans.) -/
def extract_keyframes (frames : List Frame) (bounds : List ℕ) : List (Frame × ℕ) :=
  (List.range bounds.length).map (fun i =>
    ((shotFrames frames bounds i).getD (selectRep (shotFrames frames bounds i)) [],
      shotStart bounds i + selectRep (shotFrames frames bounds i)))

/-! ### Error taxonomy (the `ValueError`/`RuntimeError`/ffmpeg failures of the
source, named as in the specification) -/

/-- The exceptions the source can raise in the modelled fragment. -/
inductive PyErr
  /-- `ValueError("未提供帧号列表")`, line 137. -/
  | noFrameNumbers
  /-- `ValueError("存在无效的帧号")`, line 140 — the spec's `InvalidIndex`. -/
  | invalidFrameNumber
  /-- `ValueError` of line 218: no frames remain after skipping. -/
  | noFramesAfterSkip
  /-- `ValueError` of line 284 — the spec's `NoKeyframesFound`. -/
  | noKeyframesFound
  /-- `subprocess.CalledProcessError` re-raised at line 272. -/
  | externalToolFailure
  /-- `RuntimeError` of line 27: the backend cannot open the video. -/
  | openFailure
  deriving DecidableEq

/-! ### High-resolution extraction (`extract_frames_by_numbers`,
lines 128-175) -/

/-- Result of one run of `extract_frames_by_numbers`: the files written (with
their frame numbers) in order, the frame numbers on which a decode was
attempted (`cap.set`/`cap.read`) in order, and the exception raised, if any. -/
structure HDExtract where
  written : List (ℤ × Frame)
  attempts : List ℤ
  err : Option PyErr
  deriving DecidableEq

/-- `timestamp_seconds = int(frame_number / self.fps)`, line 150. -/
def tsOf (fps : ℕ) (fn : ℤ) : ℤ := pyInt ((fn : ℚ) / (fps : ℚ))

/-- The `for frame_number in frame_numbers` loop of lines 148-173.
`seconds` is the mutable `processed_seconds` set, `decode` the seek-and-read
of the capture (`None` when `cap.read` reports failure, line 172). A frame is
written, and its second recorded, only when the decode succeeds. -/
def extractLoop (fps : ℕ) (decode : ℤ → Option Frame) (seconds : List ℤ)
    (written : List (ℤ × Frame)) (attempts : List ℤ) : List ℤ → HDExtract
  | [] => ⟨written, attempts, none⟩
  | fn :: rest =>
    if tsOf fps fn ∈ seconds then extractLoop fps decode seconds written attempts rest
    else
      match decode fn with
      | some f =>
        extractLoop fps decode (tsOf fps fn :: seconds) (written ++ [(fn, f)])
          (attempts ++ [fn]) rest
      | none => extractLoop fps decode seconds written (attempts ++ [fn]) rest

/-- `extract_frames_by_numbers` (lines 128-175): reject an empty list, reject
any frame number outside `[0, total_frames)` (line 139) before touching the
capture, then run the deduplicating loop. -/
def extract_frames_by_numbers (total_frames fps : ℕ) (decode : ℤ → Option Frame)
    (frame_numbers : List ℤ) : HDExtract :=
  if frame_numbers.isEmpty then ⟨[], [], some .noFrameNumbers⟩
  else if frame_numbers.any
      (fun fn => decide ((total_frames : ℤ) ≤ fn) || decide (fn < 0)) then
    ⟨[], [], some .invalidFrameNumber⟩
  else extractLoop fps decode [] [] [] frame_numbers

/-! ### The capture handle (`cv2.VideoCapture` as used by the source,
lines 23-49) -/

/-- The decode context owned by one `VideoProcessor`: the `opened` flag, the
decode position (`CAP_PROP_POS_FRAMES`) and the decodable frame sequence. -/
structure Cap where
  opened : Bool
  pos : ℕ
  content : List Frame

/-- `cap.release()`: marks the context closed; releasing an already released
capture is the documented no-op. -/
def Cap.release (c : Cap) : Cap := { c with opened := false }

/-- `cap.isOpened()`. -/
def Cap.isOpened (c : Cap) : Bool := c.opened

/-- `ret, frame = cap.read()`: on an open capture, decode at the current
position and advance; a released capture reports `ret = False` (no data, no
exception). -/
def Cap.read (c : Cap) : Option Frame × Cap :=
  if c.opened then
    match c.content.get? c.pos with
    | some f => (some f, { c with pos := c.pos + 1 })
    | none => (none, c)
  else (none, c)

/-- The `while self.cap.isOpened(): ret, frame = self.cap.read(); if not ret:
break; yield frame` loop of `preprocess_video` (lines 45-49), with structural
fuel (each successful read advances `pos`, so `content.length + 1` iterations
always suffice). -/
def readLoop : ℕ → Cap → List Frame
  | 0, _ => []
  | fuel + 1, c =>
    if c.isOpened then
      match c.read with
      | (some f, c2) => f :: readLoop fuel c2
      | (none, _) => []
    else []

/-- `preprocess_video` (lines 37-49): reset the position to 0, then read
frames until the backend stops; the generator is consumed whole by
`process_video`. -/
def preprocess_video (c : Cap) : List Frame :=
  readLoop (c.content.length + 1) { c with pos := 0 }

/-! ### Low-resolution pass (`process_video`, lines 198-227) -/

/-- `process_video` (lines 198-227) given the frames its generator produced:
`skip_frames = int(skip_seconds * self.fps)`; slice them off; raise if
nothing remains; detect boundaries; select keyframes; save them with indices
shifted back by `skip_frames` (line 226).  The `.ok` payload is the list of
`(frame, adjusted index)` records passed to `save_keyframes`; an `.error`
means the exception was raised before any keyframe file was written. -/
def process_video (frames : List Frame) (fps : ℕ) (skip_seconds threshold : ℚ) :
    Except PyErr (List (Frame × ℤ)) :=
  let skipFrames : ℤ := pyInt (skip_seconds * (fps : ℚ))
  let rest := pySliceFrom frames skipFrames
  if rest.isEmpty then .error .noFramesAfterSkip
  else
    let bounds := detect_shot_boundaries rest threshold
    let kfs := extract_keyframes rest bounds
    .ok (kfs.map (fun kf => (kf.1, (kf.2 : ℤ) + skipFrames)))

/-! ### Two-pass pipeline (`process_video_pipeline`, lines 229-335) -/

/-- The oracles the pipeline interacts with: the ffmpeg exit status, whether
the compressed video opens, the frames decoded from it and its frame rate,
and the original video's metadata and seek-decode. -/
structure PipelineEnv where
  ffmpegOk : Bool
  miniOpenOk : Bool
  miniFrames : List Frame
  miniFps : ℕ
  hdTotalFrames : ℕ
  hdFps : ℕ
  hdDecode : ℤ → Option Frame

/-- Observable outcome of one `process_video_pipeline` run: the high-res
files written, the exception re-raised by the `except`/`raise` of line 293
(`none` on success), and the effects of the `finally` block of lines
295-335: the capture handles are released, and unless `keep_temp` the
compressed file and temp directory deletions are attempted. -/
structure PipelineRun where
  hdWritten : List (ℤ × Frame)
  outcome : Option PyErr
  handlesReleased : Bool
  tempDeleteAttempted : Bool
  deriving DecidableEq

/-- Steps 1-5 of the pipeline (the `try` block, lines 252-288): compress
(fatal on nonzero exit), open the compressed copy, run the low-res pass into
`mini_frames_dir`, recover the frame numbers by scanning the files it wrote,
raise `NoKeyframesFound` on an empty recovery, else extract the high-res
frames from the original. -/
def pipelineBody (env : PipelineEnv) (skip_seconds threshold : ℚ) :
    Except PyErr HDExtract :=
  if !env.ffmpegOk then .error .externalToolFailure
  else if !env.miniOpenOk then .error .openFailure
  else
    match process_video env.miniFrames env.miniFps skip_seconds threshold with
    | .error e => .error e
    | .ok miniSaved =>
      let frame_numbers := extract_numbers_from_folder
        (miniSaved.map (fun kf => keyframeName env.miniFps kf.2))
      if frame_numbers.isEmpty then .error .noKeyframesFound
      else
        let hd := extract_frames_by_numbers env.hdTotalFrames env.hdFps env.hdDecode
          (frame_numbers.map (fun n => (n : ℤ)))
        match hd.err with
        | some e => .error e
        | none => .ok hd

/-- `process_video_pipeline` (lines 229-335): run the body; the `finally`
block always releases the handles and (unless `keep_temp`) attempts the temp
deletions, after which any exception from the body is re-raised. -/
def process_video_pipeline (env : PipelineEnv) (skip_seconds threshold : ℚ)
    (keep_temp : Bool) : PipelineRun :=
  match pipelineBody env skip_seconds threshold with
  | .ok hd => ⟨hd.written, none, true, !keep_temp⟩
  | .error e => ⟨[], some e, true, !keep_temp⟩


/-! ## Helper lemmas: argmin / representative selection -/

/-- Every non-empty list of rationals has a least element. -/
theorem exists_min_mem (l : List ℚ) (h : l ≠ []) : ∃ v ∈ l, ∀ w ∈ l, v ≤ w := by
  induction l with
  | nil => exact absurd rfl h
  | cons a t ih =>
    cases t with
    | nil =>
      refine ⟨a, List.mem_cons_self a [], ?_⟩
      intro w hw
      rw [List.mem_singleton] at hw
      exact le_of_eq hw.symm
    | cons b u =>
      obtain ⟨v, hv, hmin⟩ := ih (by simp)
      by_cases hav : a ≤ v
      · refine ⟨a, List.mem_cons_self _ _, ?_⟩
        intro w hw
        rcases List.mem_cons.mp hw with rfl | hw
        · exact le_refl _
        · exact le_trans hav (hmin w hw)
      · refine ⟨v, List.mem_cons_of_mem a hv, ?_⟩
        intro w hw
        rcases List.mem_cons.mp hw with rfl | hw
        · exact le_of_not_le hav
        · exact hmin w hw

theorem argminFirst_lt_length {l : List ℚ} (h : l ≠ []) : argminFirst l < l.length := by
  obtain ⟨v, hv, hmin⟩ := exists_min_mem l h
  apply List.findIdx_lt_length_of_exists
  refine ⟨v, hv, ?_⟩
  simp only [List.all_eq_true, decide_eq_true_eq]
  exact hmin

theorem argminFirst_min {l : List ℚ} (h : l ≠ []) :
    ∀ p, (hp : p < l.length) →
      l.get ⟨argminFirst l, argminFirst_lt_length h⟩ ≤ l.get ⟨p, hp⟩ := by
  intro p hp
  have hsat := @List.findIdx_getElem _ (fun v => l.all (fun w => decide (v ≤ w))) l
    (argminFirst_lt_length h)
  simp only [List.all_eq_true, decide_eq_true_eq] at hsat
  simp only [List.get_eq_getElem]
  exact hsat _ (List.getElem_mem hp)

theorem argminFirst_lt_earlier {l : List ℚ} (h : l ≠ []) :
    ∀ p, (hp : p < argminFirst l) →
      l.get ⟨argminFirst l, argminFirst_lt_length h⟩ <
        l.get ⟨p, lt_trans hp (argminFirst_lt_length h)⟩ := by
  intro p hp
  have hplen : p < l.length := lt_trans hp (argminFirst_lt_length h)
  have hfail : (l.all (fun w => decide (l.get ⟨p, hplen⟩ ≤ w))) = false := by
    have hni := List.not_of_lt_findIdx (p := fun v => l.all (fun w => decide (v ≤ w))) hp
    simpa [List.get_eq_getElem] using hni
  rw [List.all_eq_false] at hfail
  obtain ⟨w, hw, hwf⟩ := hfail
  have hlt : w < l.get ⟨p, hplen⟩ := by simpa using hwf
  have hle : l.get ⟨argminFirst l, argminFirst_lt_length h⟩ ≤ w := by
    obtain ⟨q, hq, rfl⟩ := List.getElem_of_mem hw
    have hmin := argminFirst_min h q hq
    simpa [List.get_eq_getElem] using hmin
  exact lt_of_le_of_lt hle hlt

/-- On a constant list `np.argmin` returns index 0. -/
theorem argminFirst_const {l : List ℚ} {c : ℚ} (h : l ≠ []) (hc : ∀ v ∈ l, v = c) :
    argminFirst l = 0 := by
  cases l with
  | nil => exact absurd rfl h
  | cons a t =>
    have hall : ((a :: t).all (fun w => decide (a ≤ w))) = true := by
      simp only [List.all_eq_true, decide_eq_true_eq]
      intro w hw
      rw [hc a (List.mem_cons_self a t), hc w hw]
    unfold argminFirst
    rw [List.findIdx_cons, hall]
    rfl

theorem selectRep_lt_length {shot : List Frame} (h : shot ≠ []) :
    selectRep shot < shot.length := by
  have hne : shot.map (sqDistToCentroid shot) ≠ [] := by simpa using h
  have := argminFirst_lt_length hne
  simpa [selectRep] using this

theorem selectRep_singleton (f : Frame) : selectRep [f] = 0 := by
  apply argminFirst_const (c := sqDistToCentroid [f] f) (by simp)
  intro v hv
  simp only [List.map_cons, List.map_nil, List.mem_singleton] at hv
  exact hv

/-! ## Helper lemmas: shot boundary detection -/

theorem mem_detect {frames : List Frame} {t : ℚ} {i : ℕ} :
    i ∈ detect_shot_boundaries frames t ↔
      1 ≤ i ∧ i < frames.length ∧
        t < meanAbsDiff (frames.getD (i - 1) []) (frames.getD i []) := by
  unfold detect_shot_boundaries
  rw [List.mem_filter, List.mem_range'_1]
  constructor
  · rintro ⟨⟨h1, h2⟩, h3⟩
    refine ⟨h1, by omega, by simpa using h3⟩
  · rintro ⟨h1, h2, h3⟩
    exact ⟨⟨h1, by omega⟩, by simpa using h3⟩

theorem detect_sorted (frames : List Frame) (t : ℚ) :
    List.Sorted (· < ·) (detect_shot_boundaries frames t) := by
  unfold detect_shot_boundaries
  apply List.Sorted.filter
  rw [List.range'_eq_map_range]
  exact List.Pairwise.map _ (fun a b hab => by omega) (List.sorted_lt_range _)

theorem detect_nil_of_le {frames : List Frame} {t : ℚ}
    (h : ∀ i, 1 ≤ i → i < frames.length →
      meanAbsDiff (frames.getD (i - 1) []) (frames.getD i []) ≤ t) :
    detect_shot_boundaries frames t = [] := by
  rw [List.eq_nil_iff_forall_not_mem]
  intro i hi
  rw [mem_detect] at hi
  exact absurd hi.2.2 (not_lt.mpr (h i hi.1 hi.2.1))

theorem detect_spike {frames : List Frame} {t : ℚ} {k : ℕ}
    (hk1 : 1 ≤ k) (hk2 : k < frames.length)
    (h : ∀ i, 1 ≤ i → i < frames.length →
      ((t < meanAbsDiff (frames.getD (i - 1) []) (frames.getD i [])) ↔ i = k)) :
    detect_shot_boundaries frames t = [k] := by
  have hall : ∀ i ∈ detect_shot_boundaries frames t, i = k := by
    intro i hi
    rw [mem_detect] at hi
    exact (h i hi.1 hi.2.1).mp hi.2.2
  have hmem : k ∈ detect_shot_boundaries frames t := by
    rw [mem_detect]
    exact ⟨hk1, hk2, (h k hk1 hk2).mpr rfl⟩
  have hnd := (detect_sorted frames t).nodup
  cases hd : detect_shot_boundaries frames t with
  | nil => rw [hd] at hmem; simp at hmem
  | cons a u =>
    rw [hd] at hall hnd
    have ha : a = k := hall a (List.mem_cons_self a u)
    have hu : u = [] := by
      by_contra hne
      obtain ⟨b, hb⟩ := List.exists_mem_of_ne_nil u hne
      have hbk : b = k := hall b (List.mem_cons_of_mem a hb)
      have hnotmem : a ∉ u := (List.nodup_cons.mp hnd).1
      rw [ha] at hnotmem
      rw [hbk] at hb
      exact hnotmem hb
    rw [ha, hu]


/-! ## Helper lemmas: keyframe extraction -/

theorem extract_keyframes_nil (frames : List Frame) :
    extract_keyframes frames [] = [] := by
  simp [extract_keyframes]

theorem shotStart_lt_stop {frames : List Frame} {bounds : List ℕ} {i : ℕ}
    (hs : List.Sorted (· < ·) bounds)
    (hmem : ∀ b ∈ bounds, 1 ≤ b ∧ b < frames.length)
    (hi : i < bounds.length) :
    shotStart bounds i < bounds.getD i 0 := by
  rw [List.getD_eq_getElem _ _ hi]
  unfold shotStart
  by_cases h0 : 0 < i
  · rw [if_pos h0, List.getD_eq_getElem _ _ (by omega)]
    exact List.pairwise_iff_getElem.mp hs (i - 1) i (by omega) hi (by omega)
  · rw [if_neg h0]
    exact lt_of_lt_of_le Nat.zero_lt_one (hmem _ (List.getElem_mem hi)).1

theorem shotFrames_length {frames : List Frame} {bounds : List ℕ} {i : ℕ}
    (hmem : ∀ b ∈ bounds, 1 ≤ b ∧ b < frames.length)
    (hi : i < bounds.length) :
    (shotFrames frames bounds i).length = bounds.getD i 0 - shotStart bounds i := by
  have hstop : bounds.getD i 0 < frames.length := by
    rw [List.getD_eq_getElem _ _ hi]
    exact (hmem _ (List.getElem_mem hi)).2
  unfold shotFrames
  rw [List.length_take, List.length_drop]
  omega

theorem extract_keyframes_idx_lt {frames : List Frame} {bounds : List ℕ}
    (hs : List.Sorted (· < ·) bounds)
    (hmem : ∀ b ∈ bounds, 1 ≤ b ∧ b < frames.length) :
    ∀ kf ∈ extract_keyframes frames bounds, kf.2 < frames.length := by
  intro kf hkf
  unfold extract_keyframes at hkf
  rw [List.mem_map] at hkf
  obtain ⟨i, hi, rfl⟩ := hkf
  rw [List.mem_range] at hi
  have hlt := shotStart_lt_stop hs hmem hi
  have hlen := shotFrames_length hmem hi
  have hne : shotFrames frames bounds i ≠ [] := by
    intro hnil
    rw [hnil] at hlen
    simp only [List.length_nil] at hlen
    omega
  have hsel := selectRep_lt_length hne
  rw [List.getD_eq_getElem _ _ hi] at hlt hlen
  have hstop : bounds[i] < frames.length := (hmem _ (List.getElem_mem hi)).2
  show shotStart bounds i + selectRep (shotFrames frames bounds i) < frames.length
  omega


/-! ## Claim C6 -/

/-- C6: for every non-empty shot span, `extract_keyframes`'s per-shot choice
(`selectRep`) is a valid position of the span, the frame there has minimal
squared euclidean distance to the centroid (mean vector) of the span's
feature vectors, every strictly earlier position has strictly larger
distance (ties broken by the first minimum, as `np.argmin` does), and on a
span of identical frames position 0 is chosen. -/
theorem C6_centroid_nearest_first_min (shot : List Frame) (h : shot ≠ []) :
    selectRep shot < shot.length ∧
      (∀ p, (hp : p < shot.length) →
        sqDistToCentroid shot (shot.get ⟨selectRep shot, selectRep_lt_length h⟩) ≤
          sqDistToCentroid shot (shot.get ⟨p, hp⟩)) ∧
      (∀ p, (hp : p < selectRep shot) →
        sqDistToCentroid shot (shot.get ⟨selectRep shot, selectRep_lt_length h⟩) <
          sqDistToCentroid shot (shot.get ⟨p, lt_trans hp (selectRep_lt_length h)⟩)) ∧
      ((∀ f ∈ shot, f = shot.headI) → selectRep shot = 0) := by
  have hmapne : shot.map (sqDistToCentroid shot) ≠ [] := by simpa using h
  refine ⟨selectRep_lt_length h, ?_, ?_, ?_⟩
  · intro p hp
    have hm := argminFirst_min hmapne p (by simpa using hp)
    simp only [List.get_eq_getElem, List.getElem_map] at hm
    simp only [List.get_eq_getElem]
    simpa [selectRep] using hm
  · intro p hp
    have hm := argminFirst_lt_earlier hmapne p (by simpa [selectRep] using hp)
    simp only [List.get_eq_getElem, List.getElem_map] at hm
    simp only [List.get_eq_getElem]
    simpa [selectRep] using hm
  · intro hid
    apply argminFirst_const (c := sqDistToCentroid shot shot.headI) hmapne
    intro v hv
    rw [List.mem_map] at hv
    obtain ⟨f, hf, rfl⟩ := hv
    rw [hid f hf]

/-- C6 witness: a concrete two-element span of identical frames; its
hypothesis is discharged and position 0 is selected. -/
theorem C6_witness : selectRep [[5], [5]] = 0 :=
  (C6_centroid_nearest_first_min [[5], [5]] (by simp)).2.2.2
    (by intro f hf; fin_cases hf <;> rfl)

/-! ## Claim C5 -/

/-- C5: `detect_shot_boundaries` records `i` (for `i` in `1..N-1`) iff the
mean absolute grayscale difference of frames `i-1` and `i` exceeds the
threshold; the output is strictly increasing; and if the only
above-threshold difference is at `k`, the output is exactly `[k]`. -/
theorem C5_boundary_characterization (frames : List Frame) (t : ℚ) (k : ℕ) :
    (∀ i, i ∈ detect_shot_boundaries frames t ↔
        1 ≤ i ∧ i < frames.length ∧
          t < meanAbsDiff (frames.getD (i - 1) []) (frames.getD i [])) ∧
      List.Sorted (· < ·) (detect_shot_boundaries frames t) ∧
      (1 ≤ k → k < frames.length →
        (∀ i, 1 ≤ i → i < frames.length →
          ((t < meanAbsDiff (frames.getD (i - 1) []) (frames.getD i [])) ↔ i = k)) →
        detect_shot_boundaries frames t = [k]) :=
  ⟨fun _ => mem_detect, detect_sorted frames t, fun h1 h2 h3 => detect_spike h1 h2 h3⟩

/-- C5 witness: a three-frame sequence with a single intensity spike at
index 1 yields exactly the boundary list `[1]`. -/
theorem C5_witness : detect_shot_boundaries [[0], [100], [100]] 30 = [1] :=
  (C5_boundary_characterization [[0], [100], [100]] 30 1).2.2 (by norm_num) (by norm_num)
    (by
      intro i h1 h2
      simp only [List.length_cons, List.length_nil] at h2
      interval_cases i <;> norm_num [meanAbsDiff])

/-! ## Claim C1 (corrected) -/

/-- C1 counterexample: on a two-frame sequence of identical frames every
pairwise difference is `0 ≤ 30`, the boundary list is empty — but
`extract_keyframes` then produces zero pairs, not exactly one: its loop runs
`range(len(shot_boundaries))` times, which is zero times. -/
theorem C1_counterexample :
    detect_shot_boundaries [[0], [0]] 30 = [] ∧
      ((extract_keyframes [[0], [0]] (detect_shot_boundaries [[0], [0]] 30)).length = 1 →
        False) := by
  have hd : detect_shot_boundaries [[0], [0]] 30 = [] := by
    apply detect_nil_of_le
    intro i h1 h2
    simp only [List.length_cons, List.length_nil] at h2
    interval_cases i
    norm_num [meanAbsDiff]
  refine ⟨hd, ?_⟩
  rw [hd, extract_keyframes_nil]
  simp

/-- C1 (amended): for every non-empty frame sequence in which every
consecutive grayscale mean-absolute difference is `≤ threshold`,
`detect_shot_boundaries` returns the empty boundary list, and
`extract_keyframes` applied to that sequence and boundary list produces
zero `(representative frame, index)` pairs — not one: with no boundaries the
whole sequence is never covered by any shot. -/
theorem C1_uniform_sequence_no_keyframes (frames : List Frame) (t : ℚ)
    (_hne : frames ≠ [])
    (h : ∀ i, 1 ≤ i → i < frames.length →
      meanAbsDiff (frames.getD (i - 1) []) (frames.getD i []) ≤ t) :
    detect_shot_boundaries frames t = [] ∧
      extract_keyframes frames (detect_shot_boundaries frames t) = [] := by
  have hd := detect_nil_of_le h
  exact ⟨hd, by rw [hd, extract_keyframes_nil]⟩

/-- C1 witness: the amended claim applied to the concrete uniform two-frame
sequence. -/
theorem C1_witness :
    detect_shot_boundaries [[0], [0]] 30 = [] ∧
      extract_keyframes [[0], [0]] (detect_shot_boundaries [[0], [0]] 30) = [] :=
  C1_uniform_sequence_no_keyframes [[0], [0]] 30 (by simp)
    (by
      intro i h1 h2
      simp only [List.length_cons, List.length_nil] at h2
      interval_cases i
      norm_num [meanAbsDiff])

/-! ## Claim C10 -/

/-- C10: whenever `int(skip_seconds * fps)` is at least the number of frames
read, `process_video` raises (`ValueError`, line 218) before boundary
detection, keyframe selection, or any file write: the error result carries
no saved keyframe records. -/
theorem C10_skip_exhausts_frames (frames : List Frame) (fps : ℕ)
    (skip_seconds threshold : ℚ)
    (h : (frames.length : ℤ) ≤ pyInt (skip_seconds * (fps : ℚ))) :
    process_video frames fps skip_seconds threshold = .error .noFramesAfterSkip := by
  have h0 : (0 : ℤ) ≤ pyInt (skip_seconds * (fps : ℚ)) :=
    le_trans (by positivity) h
  have hempty : (pySliceFrom frames (pyInt (skip_seconds * (fps : ℚ)))).isEmpty = true := by
    unfold pySliceFrom
    rw [if_pos h0, List.isEmpty_iff, List.drop_eq_nil_iff]
    omega
  unfold process_video
  simp only [hempty]
  rfl

/-- C10 witness: one frame, `fps = 1`, `skip_seconds = 5`. -/
theorem C10_witness :
    process_video [[0]] 1 5 30 = .error .noFramesAfterSkip :=
  C10_skip_exhausts_frames [[0]] 1 5 30
    (by norm_num [pyInt, qfloor])

/-! ## Claim C8 (corrected) -/

/-- C8 counterexample: on a concrete open capture holding one decodable
frame, releasing and then reading silently yields the empty frame sequence —
`preprocess_video` has no failure outcome at all (`while cap.isOpened()`
is immediately false), which contradicts the claim that frame reads after
release fail explicitly rather than silently returning no data; the same
handle read before release yields the frame. -/
theorem C8_counterexample :
    preprocess_video (Cap.release ⟨true, 0, [[7]]⟩) = [] ∧
      preprocess_video ⟨true, 0, [[7]]⟩ = [[7]] := by
  exact ⟨rfl, rfl⟩

/-- C8 (amended): releasing a capture twice is a no-op (the second release
changes nothing and raises nothing), and frame reads after release silently
report no data rather than failing explicitly: `cap.read()` returns
`ret = False` and `preprocess_video` yields the empty sequence without
raising. -/
theorem C8_double_release_noop_silent_reads (c : Cap) :
    (c.release).release = c.release ∧
      (c.release).isOpened = false ∧
      (c.release).read = (none, c.release) ∧
      preprocess_video c.release = [] := by
  refine ⟨rfl, rfl, ?_, ?_⟩
  · unfold Cap.read Cap.release
    simp
  · unfold preprocess_video readLoop
    simp [Cap.isOpened, Cap.release]


/-! ## Claim C3 -/

/-- C3: a frame-number list containing any index outside `[0, total_frames)`
makes `extract_frames_by_numbers` fail with the invalid-index `ValueError`
(line 140) with no decode attempt and no file written; conversely, whenever
no error is raised, every supplied index was in `[0, total_frames)`. -/
theorem C3_invalid_index_rejected_before_decode (total fps : ℕ)
    (decode : ℤ → Option Frame) (nums : List ℤ) :
    ((∃ fn ∈ nums, fn < 0 ∨ (total : ℤ) ≤ fn) →
        extract_frames_by_numbers total fps decode nums =
          ⟨[], [], some .invalidFrameNumber⟩) ∧
      ((extract_frames_by_numbers total fps decode nums).err = none →
        ∀ fn ∈ nums, 0 ≤ fn ∧ fn < (total : ℤ)) := by
  constructor
  · rintro ⟨fn, hfn, hbad⟩
    unfold extract_frames_by_numbers
    have hne : nums.isEmpty = false := by
      cases nums with
      | nil => simp at hfn
      | cons a t => rfl
    have hany : nums.any (fun fn => decide ((total : ℤ) ≤ fn) || decide (fn < 0)) = true := by
      rw [List.any_eq_true]
      refine ⟨fn, hfn, ?_⟩
      rcases hbad with h | h <;> simp [h]
    simp [hne, hany]
  · intro herr fn hfn
    unfold extract_frames_by_numbers at herr
    by_cases h1 : nums.isEmpty = true
    · rw [if_pos h1] at herr
      simp at herr
    · rw [if_neg h1] at herr
      by_cases h2 : nums.any (fun fn => decide ((total : ℤ) ≤ fn) || decide (fn < 0)) = true
      · rw [if_pos h2] at herr
        simp at herr
      · have h2f : nums.any (fun fn => decide ((total : ℤ) ≤ fn) || decide (fn < 0)) = false :=
          Bool.eq_false_iff.mpr h2
        have := List.any_eq_false.mp h2f fn hfn
        simp only [Bool.or_eq_true, decide_eq_true_eq, not_or] at this
        omega

/-- C3 witness: the list `[5]` against a 3-frame video is rejected with no
decode attempt and no file written. -/
theorem C3_witness :
    extract_frames_by_numbers 3 1 (fun _ => none) [5] =
      ⟨[], [], some .invalidFrameNumber⟩ :=
  (C3_invalid_index_rejected_before_decode 3 1 (fun _ => none) [5]).1
    ⟨5, by simp, by norm_num⟩

/-! ## Claim C7: helper characterization of the dedup loop -/

/-- First-occurrence filter by whole-second timestamp: what the dedup loop
keeps (when every decode succeeds) out of an input list, given the seconds
already seen. -/
def keepFirstBySecond (fps : ℕ) (seen : List ℤ) : List ℤ → List ℤ
  | [] => []
  | n :: rest =>
    if tsOf fps n ∈ seen then keepFirstBySecond fps seen rest
    else n :: keepFirstBySecond fps (tsOf fps n :: seen) rest

theorem extractLoop_all_decodes (fps : ℕ) (decode : ℤ → Option Frame) :
    ∀ (nums seen : List ℤ) (written : List (ℤ × Frame)) (att : List ℤ),
      (∀ fn ∈ nums, (decode fn).isSome) →
      (extractLoop fps decode seen written att nums).written.map Prod.fst =
          written.map Prod.fst ++ keepFirstBySecond fps seen nums ∧
        (extractLoop fps decode seen written att nums).err = none := by
  intro nums
  induction nums with
  | nil =>
    intro seen written att hdec
    simp [extractLoop, keepFirstBySecond]
  | cons n rest ih =>
    intro seen written att hdec
    rw [extractLoop, keepFirstBySecond]
    by_cases hmem : tsOf fps n ∈ seen
    · rw [if_pos hmem, if_pos hmem]
      exact ih seen written att (fun fn hfn => hdec fn (List.mem_cons_of_mem _ hfn))
    · rw [if_neg hmem, if_neg hmem]
      obtain ⟨f, hf⟩ := Option.isSome_iff_exists.mp (hdec n (List.mem_cons_self _ _))
      rw [hf]
      have hrec := ih (tsOf fps n :: seen) (written ++ [(n, f)]) (att ++ [n])
        (fun fn hfn => hdec fn (List.mem_cons_of_mem _ hfn))
      refine ⟨?_, hrec.2⟩
      rw [hrec.1]
      simp

theorem keepFirstBySecond_filter (fps : ℕ) :
    ∀ (nums seen : List ℤ) (s : ℤ),
      (keepFirstBySecond fps seen nums).filter (fun n => decide (tsOf fps n = s)) =
        if s ∈ seen then []
        else (nums.find? (fun n => decide (tsOf fps n = s))).toList := by
  intro nums
  induction nums with
  | nil =>
    intro seen s
    rw [keepFirstBySecond]
    by_cases hs : s ∈ seen <;> simp [hs]
  | cons n rest ih =>
    intro seen s
    rw [keepFirstBySecond]
    by_cases hmem : tsOf fps n ∈ seen
    · rw [if_pos hmem, ih seen s]
      by_cases hs : s ∈ seen
      · simp [hs]
      · have hts : (decide (tsOf fps n = s)) = false := by
          simp only [decide_eq_false_iff_not]
          intro he
          exact hs (he ▸ hmem)
        simp [hs, List.find?_cons, hts]
    · rw [if_neg hmem, List.filter_cons]
      by_cases hts : tsOf fps n = s
      · subst hts
        have h1 := ih (tsOf fps n :: seen) (tsOf fps n)
        rw [if_pos (List.mem_cons_self _ _)] at h1
        rw [if_pos (by simp : (decide (tsOf fps n = tsOf fps n)) = true), h1]
        rw [if_neg hmem]
        simp [List.find?_cons]
      · have hdec : (decide (tsOf fps n = s)) = false := by
          simp [hts]
        rw [hdec]
        simp only [Bool.false_eq_true, if_false]
        rw [ih (tsOf fps n :: seen) s]
        have hmemiff : (s ∈ tsOf fps n :: seen) ↔ s ∈ seen := by
          simp only [List.mem_cons]
          constructor
          · rintro (rfl | h)
            · exact absurd rfl hts
            · exact h
          · exact Or.inr
        by_cases hs : s ∈ seen
        · rw [if_pos (hmemiff.mpr hs), if_pos hs]
        · rw [if_neg (fun h => hs (hmemiff.mp h)), if_neg hs]
          simp [List.find?_cons, hdec]

/-- C7: with every decode succeeding, for each whole-second timestamp the
written files contain exactly one file per second occurring in the input —
the one for the first-processed index mapping to that second — and indices
whose second was already seen are skipped without error (`err = none`; a
second not occurring in the input gets no file, matching `find? = none`). -/
theorem C7_dedup_one_file_per_second (total fps : ℕ) (decode : ℤ → Option Frame)
    (nums : List ℤ) (hne : nums ≠ [])
    (hvalid : ∀ fn ∈ nums, 0 ≤ fn ∧ fn < (total : ℤ))
    (hdec : ∀ fn ∈ nums, (decode fn).isSome) :
    (extract_frames_by_numbers total fps decode nums).err = none ∧
      ∀ s : ℤ,
        ((extract_frames_by_numbers total fps decode nums).written.map Prod.fst).filter
            (fun n => decide (tsOf fps n = s)) =
          (nums.find? (fun n => decide (tsOf fps n = s))).toList := by
  have h1 : nums.isEmpty = false := by
    cases nums with
    | nil => exact absurd rfl hne
    | cons a t => rfl
  have h2 : nums.any (fun fn => decide ((total : ℤ) ≤ fn) || decide (fn < 0)) = false := by
    rw [List.any_eq_false]
    intro fn hfn
    have := hvalid fn hfn
    simp only [Bool.or_eq_true, decide_eq_true_eq, not_or]
    omega
  have hloop := extractLoop_all_decodes fps decode nums [] [] [] hdec
  unfold extract_frames_by_numbers
  rw [h1, h2]
  simp only [Bool.false_eq_true, if_false]
  refine ⟨hloop.2, fun s => ?_⟩
  rw [hloop.1]
  simp only [List.map_nil, List.nil_append]
  rw [keepFirstBySecond_filter fps nums [] s]
  simp

/-- C7 witness: indices `[0, 1, 2]` at 2 fps — seconds `0, 0, 1` — with all
decodes succeeding: no error, and second `0` gets exactly the file of index
`0`, the first-processed index of that second. -/
theorem C7_witness :
    (extract_frames_by_numbers 4 2 (fun _ => some []) [0, 1, 2]).err = none ∧
      ((extract_frames_by_numbers 4 2 (fun _ => some []) [0, 1, 2]).written.map
          Prod.fst).filter (fun n => decide (tsOf 2 n = 0)) =
        (([0, 1, 2] : List ℤ).find? (fun n => decide (tsOf 2 n = 0))).toList :=
  ⟨(C7_dedup_one_file_per_second 4 2 (fun _ => some []) [0, 1, 2] (by simp)
      (by intro fn hfn; fin_cases hfn <;> norm_num) (fun fn _ => rfl)).1,
    (C7_dedup_one_file_per_second 4 2 (fun _ => some []) [0, 1, 2] (by simp)
      (by intro fn hfn; fin_cases hfn <;> norm_num) (fun fn _ => rfl)).2 0⟩


/-! ## Claim C9 -/

theorem pySliceFrom_length_add_le {α : Type} (l : List α) (k : ℤ) :
    ((pySliceFrom l k).length : ℤ) + k ≤ (l.length : ℤ) ∨
      (pySliceFrom l k).length = 0 := by
  unfold pySliceFrom
  by_cases h0 : (0 : ℤ) ≤ k
  · rw [if_pos h0, List.length_drop]
    omega
  · rw [if_neg h0, List.length_drop]
    omega

/-- C9: when the low-resolution pass succeeds, every saved keyframe record
carries the representative's position inside the truncated sequence shifted
by `skip_frames = int(skip_seconds * fps)` (line 226), so each saved index
is at least `skip_frames` and less than the number of frames read. -/
theorem C9_saved_indices_original_numbering (frames : List Frame) (fps : ℕ)
    (skip_seconds threshold : ℚ) (saved : List (Frame × ℤ))
    (h : process_video frames fps skip_seconds threshold = .ok saved) :
    saved.map Prod.snd =
        (extract_keyframes (pySliceFrom frames (pyInt (skip_seconds * (fps : ℚ))))
            (detect_shot_boundaries
              (pySliceFrom frames (pyInt (skip_seconds * (fps : ℚ)))) threshold)).map
          (fun kf => (kf.2 : ℤ) + pyInt (skip_seconds * (fps : ℚ))) ∧
      ∀ idx ∈ saved.map Prod.snd,
        pyInt (skip_seconds * (fps : ℚ)) ≤ idx ∧ idx < (frames.length : ℤ) := by
  simp only [process_video] at h
  by_cases hemp :
      (pySliceFrom frames (pyInt (skip_seconds * (fps : ℚ)))).isEmpty = true
  · rw [if_pos hemp] at h
    exact absurd h (by simp)
  · rw [if_neg hemp] at h
    have hsaved :
        (extract_keyframes (pySliceFrom frames (pyInt (skip_seconds * (fps : ℚ))))
            (detect_shot_boundaries
              (pySliceFrom frames (pyInt (skip_seconds * (fps : ℚ)))) threshold)).map
          (fun kf => (kf.1, (kf.2 : ℤ) + pyInt (skip_seconds * (fps : ℚ)))) = saved := by
      simpa using h
    constructor
    · rw [← hsaved]
      simp [Function.comp]
    · intro idx hidx
      rw [← hsaved] at hidx
      simp only [List.map_map, List.mem_map, Function.comp] at hidx
      obtain ⟨kf, hkf, rfl⟩ := hidx
      have hp : kf.2 < (pySliceFrom frames (pyInt (skip_seconds * (fps : ℚ)))).length := by
        refine extract_keyframes_idx_lt (detect_sorted _ _) ?_ kf hkf
        intro b hb
        rw [mem_detect] at hb
        exact ⟨hb.1, hb.2.1⟩
      have hne0 : (pySliceFrom frames (pyInt (skip_seconds * (fps : ℚ)))).length ≠ 0 := by
        simpa [List.isEmpty_iff, List.length_eq_zero] using hemp
      have hlenle :
          ((pySliceFrom frames (pyInt (skip_seconds * (fps : ℚ)))).length : ℤ) +
            pyInt (skip_seconds * (fps : ℚ)) ≤ (frames.length : ℤ) := by
        rcases pySliceFrom_length_add_le frames (pyInt (skip_seconds * (fps : ℚ))) with hc | hc
        · exact hc
        · exact absurd hc hne0
      constructor
      · omega
      · omega


/-- C9 witness: three frames at 1 fps with `skip_seconds = 1`: the single
representative sits at position 0 of the truncated sequence and is saved
with index `0 + skip_frames = 1`, which lies in `[skip_frames, 3)`. -/
theorem C9_witness :
    process_video [[0], [0], [100]] 1 1 30 = .ok [([0], 1)] ∧
      pyInt ((1 : ℚ) * ((1 : ℕ) : ℚ)) ≤ (1 : ℤ) ∧
        (1 : ℤ) < (([[0], [0], [100]] : List Frame).length : ℤ) := by
  have hK : pyInt ((1 : ℚ) * ((1 : ℕ) : ℚ)) = 1 := by norm_num [pyInt, qfloor]
  have hslice : pySliceFrom ([[0], [0], [100]] : List Frame) 1 = [[0], [100]] := by
    norm_num [pySliceFrom]
  have hdet : detect_shot_boundaries [[0], [100]] 30 = [1] := by
    apply detect_spike (by norm_num) (by norm_num)
    intro i h1 h2
    simp only [List.length_cons, List.length_nil] at h2
    interval_cases i
    norm_num [meanAbsDiff]
  have hext : extract_keyframes [[0], [100]] [1] = [([0], 0)] := by
    rw [extract_keyframes]
    rw [show ([1] : List ℕ).length = 1 from rfl, List.range_succ]
    simp only [List.range_zero, List.nil_append, List.map_cons, List.map_nil, shotStart,
      shotFrames]
    norm_num [selectRep_singleton]
  have hEval : process_video [[0], [0], [100]] 1 1 30 = .ok [([0], 1)] := by
    simp only [process_video]
    rw [hK, hslice]
    rw [if_neg (by simp)]
    rw [hdet, hext]
    norm_num
  refine ⟨hEval, ?_⟩
  have := (C9_saved_indices_original_numbering [[0], [0], [100]] 1 1 30 [([0], 1)] hEval).2
  have h1 := this 1 (by simp)
  simpa using h1


/-! ## Claim C4 -/

/-- C4: if the recovery scan of the mini-frames directory (the files written
by the successful low-res pass) is empty, the pipeline fails with
`NoKeyframesFound` before any high-res extraction (no high-res file is
written); and whenever the body raises any exception, the `finally` cleanup
still runs (handles released; temp deletions attempted unless `keep_temp`)
and the exception is re-raised as the pipeline's outcome. -/
theorem C4_empty_recovery_aborts_cleanup_runs (env : PipelineEnv)
    (skip_seconds threshold : ℚ) (keep_temp : Bool) :
    ((env.ffmpegOk = true) → (env.miniOpenOk = true) →
      ∀ ms, process_video env.miniFrames env.miniFps skip_seconds threshold = .ok ms →
        extract_numbers_from_folder (ms.map (fun kf => keyframeName env.miniFps kf.2)) =
            [] →
        (process_video_pipeline env skip_seconds threshold keep_temp).outcome =
            some .noKeyframesFound ∧
          (process_video_pipeline env skip_seconds threshold keep_temp).hdWritten = []) ∧
      (∀ e, (process_video_pipeline env skip_seconds threshold keep_temp).outcome =
          some e →
        (process_video_pipeline env skip_seconds threshold keep_temp).handlesReleased =
            true ∧
          (keep_temp = false →
            (process_video_pipeline env skip_seconds
              threshold keep_temp).tempDeleteAttempted = true)) := by
  constructor
  · intro hff hopen ms hms hscan
    have hbody : pipelineBody env skip_seconds threshold = .error .noKeyframesFound := by
      unfold pipelineBody
      rw [hff, hopen]
      simp only [Bool.not_true, Bool.false_eq_true, if_false]
      rw [hms]
      dsimp only
      rw [hscan]
      rfl
    unfold process_video_pipeline
    rw [hbody]
    exact ⟨rfl, rfl⟩
  · intro e he
    unfold process_video_pipeline at he ⊢
    cases hbody : pipelineBody env skip_seconds threshold with
    | ok hd =>
      rw [hbody] at he
      simp at he
    | error e2 =>
      rw [hbody] at he
      exact ⟨rfl, fun hk => by rw [hk]; rfl⟩

/-- C4 witness: a pipeline run whose compressed video consists of two
identical frames: no boundaries, no mini keyframes, empty recovery scan —
outcome `NoKeyframesFound`, no high-res file written, handles released and
temp deletion attempted. -/
theorem C4_witness :
    (process_video_pipeline ⟨true, true, [[0], [0]], 1, 100, 30, fun _ => some []⟩
          0 30 false).outcome = some .noKeyframesFound ∧
      (process_video_pipeline ⟨true, true, [[0], [0]], 1, 100, 30, fun _ => some []⟩
          0 30 false).hdWritten = [] ∧
      (process_video_pipeline ⟨true, true, [[0], [0]], 1, 100, 30, fun _ => some []⟩
          0 30 false).handlesReleased = true ∧
      (process_video_pipeline ⟨true, true, [[0], [0]], 1, 100, 30, fun _ => some []⟩
          0 30 false).tempDeleteAttempted = true := by
  have hms : process_video [[0], [0]] 1 0 30 = .ok [] := by
    have hK : pyInt ((0 : ℚ) * ((1 : ℕ) : ℚ)) = 0 := by norm_num [pyInt, qfloor]
    have hdet : detect_shot_boundaries [[0], [0]] 30 = [] := by
      apply detect_nil_of_le
      intro i h1 h2
      simp only [List.length_cons, List.length_nil] at h2
      interval_cases i
      norm_num [meanAbsDiff]
    have hslice : pySliceFrom ([[0], [0]] : List Frame) 0 = [[0], [0]] := by
      norm_num [pySliceFrom]
    simp only [process_video]
    rw [hK, hslice]
    rw [if_neg (by simp)]
    rw [hdet, extract_keyframes_nil]
    rfl
  have hmain := C4_empty_recovery_aborts_cleanup_runs
    ⟨true, true, [[0], [0]], 1, 100, 30, fun _ => some []⟩ 0 30 false
  have h1 := hmain.1 rfl rfl [] hms rfl
  have h2 := hmain.2 .noKeyframesFound h1.1
  exact ⟨h1.1, h1.2, h2.1, h2.2 rfl⟩


/-! ## Claim C2: formatting / recovery-scan round-trip lemmas -/

theorem startsWith_append (a r : List ℕ) : startsWith a (a ++ r) = true := by
  induction a with
  | nil => rfl
  | cons c t ih => simp [startsWith, ih]

theorem endsWith_append (x suf : List ℕ) : endsWith suf (x ++ suf) = true := by
  unfold endsWith
  rw [List.reverse_append]
  exact startsWith_append _ _

theorem takeWhile_all_append {p : ℕ → Bool} (a : List ℕ) (b : ℕ) (r : List ℕ)
    (ha : ∀ x ∈ a, p x = true) (hb : p b = false) :
    (a ++ b :: r).takeWhile p = a := by
  induction a with
  | nil => simp [List.takeWhile_cons, hb]
  | cons c t ih =>
    rw [List.cons_append, List.takeWhile_cons, ha c (List.mem_cons_self _ _)]
    simp only [if_true]
    rw [ih (fun x hx => ha x (List.mem_cons_of_mem _ hx))]

theorem natDigitsAux_lt_ten : ∀ (fuel n : ℕ), ∀ d ∈ natDigitsAux fuel n, d < 10 := by
  intro fuel
  induction fuel with
  | zero => intro n d hd; simp [natDigitsAux] at hd
  | succ f ih =>
    intro n d hd
    cases n with
    | zero => simp [natDigitsAux] at hd
    | succ m =>
      rw [natDigitsAux] at hd
      rcases List.mem_cons.mp hd with rfl | hd
      · exact Nat.mod_lt _ (by norm_num)
      · exact ih _ d hd

theorem isDigitCode_digitsBE (n : ℕ) : ∀ c ∈ digitsBE n, isDigitCode c = true := by
  intro c hc
  unfold digitsBE at hc
  rw [List.mem_map] at hc
  obtain ⟨d, hd, rfl⟩ := hc
  rw [List.mem_reverse] at hd
  have := natDigitsAux_lt_ten n n d hd
  simp only [isDigitCode, Bool.and_eq_true, decide_eq_true_eq]
  omega

theorem isDigitCode_fmtNat (w n : ℕ) : ∀ c ∈ fmtNat w n, isDigitCode c = true := by
  intro c hc
  unfold fmtNat at hc
  rw [List.mem_append] at hc
  rcases hc with hc | hc
  · rw [List.mem_replicate] at hc
    rw [hc.2]
    rfl
  · exact isDigitCode_digitsBE n c hc

theorem fmtNat_length (w n : ℕ) : w ≤ (fmtNat w n).length := by
  unfold fmtNat
  rw [List.length_append, List.length_replicate]
  omega

theorem ofDigits_natDigitsAux : ∀ (fuel n : ℕ), n ≤ fuel →
    Nat.ofDigits 10 (natDigitsAux fuel n) = n := by
  intro fuel
  induction fuel with
  | zero => intro n hn; interval_cases n; simp [natDigitsAux]
  | succ f ih =>
    intro n hn
    cases n with
    | zero => simp [natDigitsAux]
    | succ m =>
      rw [natDigitsAux, Nat.ofDigits_cons, ih ((m + 1) / 10) (by omega)]
      omega

theorem ofDigits_replicate_zero : ∀ k : ℕ, Nat.ofDigits 10 (List.replicate k 0) = 0 := by
  intro k
  induction k with
  | zero => simp
  | succ j ih => rw [List.replicate_succ, Nat.ofDigits_cons, ih]

theorem valCodes_fmtNat (w n : ℕ) : valCodes (fmtNat w n) = n := by
  unfold valCodes fmtNat digitsBE
  rw [List.map_append, List.map_replicate, List.map_map, List.reverse_append,
    List.reverse_replicate]
  have hmm : ((fun c => c - 48) ∘ fun d => 48 + d) = fun d : ℕ => d := by
    funext d
    simp
  rw [hmm, show (List.map (fun d : ℕ => d) (natDigitsAux n n).reverse) =
      (natDigitsAux n n).reverse from List.map_id _, List.reverse_reverse,
    Nat.ofDigits_append, show (48 - 48 : ℕ) = 0 from rfl, ofDigits_replicate_zero,
    ofDigits_natDigitsAux n n (le_refl n)]
  simp


theorem qfloor_eq_floor (q : ℚ) : qfloor q = ⌊q⌋ := by
  rw [Rat.floor_def]
  rfl

theorem qfloor_nonneg {q : ℚ} (h : 0 ≤ q) : 0 ≤ qfloor q := by
  rw [qfloor_eq_floor]
  exact Int.floor_nonneg.mpr h

theorem qmod_nonneg (a b : ℚ) (hb : 0 < b) : 0 ≤ qmod a b := by
  unfold qmod
  rw [qfloor_eq_floor]
  have h1 : b * ((⌊a / b⌋ : ℤ) : ℚ) ≤ b * (a / b) :=
    mul_le_mul_of_nonneg_left (Int.floor_le _) hb.le
  have h2 : b * (a / b) = a := by
    field_simp
  linarith

theorem fmtInt_nonneg_eq {w : ℕ} {n : ℤ} (hn : 0 ≤ n) : fmtInt w n = fmtNat w n.toNat := by
  unfold fmtInt
  rw [if_pos hn]

theorem isDigitCode_fmtInt {w : ℕ} {n : ℤ} (hn : 0 ≤ n) :
    ∀ c ∈ fmtInt w n, isDigitCode c = true := by
  rw [fmtInt_nonneg_eq hn]
  exact isDigitCode_fmtNat _ _

theorem fmtNat_ne_nil {w n : ℕ} (hw : 0 < w) : fmtNat w n ≠ [] := by
  intro h
  have := fmtNat_length w n
  rw [h] at this
  simp at this
  omega

theorem matchKeyframeAt_name (fps : ℕ) (idx : ℤ) (hidx : 0 ≤ idx) (hfps : 0 < fps) :
    matchKeyframeAt (keyframeName fps idx) = some idx.toNat := by
  have hts : (0 : ℚ) ≤ (idx : ℚ) / (fps : ℚ) := by positivity
  have hh : (0 : ℤ) ≤ qfloor ((idx : ℚ) / (fps : ℚ) / 3600) :=
    qfloor_nonneg (by positivity)
  have hm : (0 : ℤ) ≤ qfloor (qmod ((idx : ℚ) / (fps : ℚ)) 3600 / 60) :=
    qfloor_nonneg (div_nonneg (qmod_nonneg _ _ (by norm_num)) (by norm_num))
  have hs : (0 : ℤ) ≤ qfloor (qmod ((idx : ℚ) / (fps : ℚ)) 60) :=
    qfloor_nonneg (qmod_nonneg _ _ (by norm_num))
  have hTdig : ∀ c ∈ timeCodes fps idx, isDigitCode c = true := by
    intro c hc
    unfold timeCodes at hc
    simp only [List.mem_append] at hc
    rcases hc with (hc | hc) | hc
    · exact isDigitCode_fmtInt hh _ hc
    · exact isDigitCode_fmtInt hm _ hc
    · exact isDigitCode_fmtInt hs _ hc
  have hTpos : 0 < (timeCodes fps idx).length := by
    unfold timeCodes
    rw [List.length_append, List.length_append, fmtInt_nonneg_eq hh]
    have := fmtNat_length 2 (qfloor ((idx : ℚ) / (fps : ℚ) / 3600)).toNat
    omega
  have hshape : keyframeName fps idx =
      kfTag ++ (fmtNat 6 idx.toNat ++ (95 :: (timeCodes fps idx ++ jpgExt))) := by
    unfold keyframeName
    rw [fmtInt_nonneg_eq hidx]
    simp [List.append_assoc]
  have h2 : (fmtNat 6 idx.toNat ++ (95 :: (timeCodes fps idx ++ jpgExt))).takeWhile
      isDigitCode = fmtNat 6 idx.toNat :=
    takeWhile_all_append _ 95 _ (isDigitCode_fmtNat _ _) rfl
  have h4 : (fmtNat 6 idx.toNat).isEmpty = false := by
    rw [← Bool.not_eq_true, List.isEmpty_iff]
    exact fmtNat_ne_nil (by norm_num)
  have h7 : (timeCodes fps idx ++ jpgExt).takeWhile isDigitCode = timeCodes fps idx := by
    rw [show timeCodes fps idx ++ jpgExt =
      timeCodes fps idx ++ 46 :: [106, 112, 103] from rfl]
    exact takeWhile_all_append _ 46 _ hTdig rfl
  have h8 : (timeCodes fps idx).isEmpty = false := by
    rw [← Bool.not_eq_true, List.isEmpty_iff]
    intro he
    rw [he] at hTpos
    simp at hTpos
  rw [hshape]
  unfold matchKeyframeAt
  rw [if_pos (startsWith_append _ _)]
  simp only [List.drop_left, h2, h4, Bool.false_eq_true, if_false]
  rw [show List.take 1 (95 :: (timeCodes fps idx ++ jpgExt)) = [95] from rfl,
    show List.drop 1 (95 :: (timeCodes fps idx ++ jpgExt)) = timeCodes fps idx ++ jpgExt
      from rfl]
  simp only [beq_self_eq_true, if_true, h7, h8, Bool.false_eq_true, if_false]
  rw [List.drop_left' rfl]
  simp only [beq_self_eq_true, if_true]
  rw [valCodes_fmtNat]


theorem searchKeyframe_name (fps : ℕ) (idx : ℤ) (hidx : 0 ≤ idx) (hfps : 0 < fps) :
    searchKeyframe (keyframeName fps idx) = some idx.toNat := by
  have hm := matchKeyframeAt_name fps idx hidx hfps
  cases hk : keyframeName fps idx with
  | nil =>
    exfalso
    unfold keyframeName kfTag at hk
    simp at hk
  | cons c rest =>
    have hm2 : matchKeyframeAt (c :: rest) = some idx.toNat := hk ▸ hm
    rw [searchKeyframe, hm2]

theorem endsWith_keyframeName (fps : ℕ) (idx : ℤ) :
    endsWith jpgExt (keyframeName fps idx) = true := by
  unfold keyframeName
  exact endsWith_append _ _

/-- C2: writing each of a set of distinct indices through the archiver's
`save` naming (`keyframe_{idx:06d}_{HHMMSS}.jpg`) and then running the
recovery scan on the resulting directory returns exactly the indices
written, ascending.  The directory's listing order is arbitrary
(`files` is any permutation of the written names). -/
theorem C2_archiver_roundtrip (idxs : List ℕ) (fps : ℕ) (hfps : 0 < fps)
    (hnd : idxs.Nodup) (files : List (List ℕ))
    (hfiles : files.Perm (idxs.map (fun i : ℕ => keyframeName fps (i : ℤ)))) :
    (extract_numbers_from_folder files).Perm idxs ∧
      List.Sorted (· < ·) (extract_numbers_from_folder files) := by
  have hperm :
      ((files.filter (fun f => endsWith jpgExt f)).filterMap searchKeyframe).Perm idxs := by
    have h1 := (hfiles.filter (fun f => endsWith jpgExt f)).filterMap searchKeyframe
    have h2 : (idxs.map (fun i : ℕ => keyframeName fps (i : ℤ))).filter
        (fun f => endsWith jpgExt f) = idxs.map (fun i : ℕ => keyframeName fps (i : ℤ)) := by
      rw [List.filter_eq_self]
      intro f hf
      rw [List.mem_map] at hf
      obtain ⟨i, _, rfl⟩ := hf
      exact endsWith_keyframeName fps (i : ℤ)
    have h3 : (idxs.map (fun i : ℕ => keyframeName fps (i : ℤ))).filterMap searchKeyframe
        = idxs := by
      rw [List.filterMap_map]
      have hcong : ∀ i ∈ idxs,
          (searchKeyframe ∘ fun i : ℕ => keyframeName fps (i : ℤ)) i = some i := by
        intro i hi
        show searchKeyframe (keyframeName fps (i : ℤ)) = some i
        rw [searchKeyframe_name fps (i : ℤ) (by positivity) hfps, Int.toNat_natCast]
      rw [List.filterMap_congr hcong]
      exact List.filterMap_some idxs
    rw [h2, h3] at h1
    exact h1
  have hfull : (extract_numbers_from_folder files).Perm idxs := by
    unfold extract_numbers_from_folder pySorted
    exact (List.perm_insertionSort _ _).trans hperm
  refine ⟨hfull, ?_⟩
  have hsorted : List.Sorted (fun a b => a ≤ b) (extract_numbers_from_folder files) := by
    unfold extract_numbers_from_folder pySorted
    exact List.sorted_insertionSort _ _
  exact List.Sorted.lt_of_le hsorted (List.Perm.nodup hfull.symm hnd)

/-- C2 witness: indices `{2, 0}` written at 1 fps and recovered, in a
directory listed in write order. -/
theorem C2_witness :
    (extract_numbers_from_folder
        ([2, 0].map (fun i : ℕ => keyframeName 1 (i : ℤ)))).Perm [2, 0] ∧
      List.Sorted (· < ·)
        (extract_numbers_from_folder ([2, 0].map (fun i : ℕ => keyframeName 1 (i : ℤ)))) :=
  C2_archiver_roundtrip [2, 0] 1 (by norm_num) (by decide) _ (List.Perm.refl _)

end VideoProc
